import Mathlib

/-!
Verification of `pm` (a live man-page previewer, `src/pm.cc`) against its
natural-language specification.

The file shallowly embeds the parts of `src/pm.cc` that the claims are about:

* the transcoder `to_html` (body-producing loop, `src/pm.cc:537-624`);
* the supervisor / signal-bridge state machine (`start_server`,
  `sigchld_listener`, `sigint_term_listener`, `print_error_and_initiate_shutdown`);
* the shutdown grace loop inside `start_server` (`src/pm.cc:683-691`);
* the watcher cycle (`watch_for_changes`) and `operator<` on `timespec`;
* `write_to_file` and `string2unsigned` plus the `-w` branch of `main`.

Machine characters are `Char`; C `int` values that stay small are `Int`/`Nat`.
`std::string` indexing past the end reads the NUL terminator (all reads in the
transcoder are at most at index `size()`, which C++11 defines to yield `'\0'`),
so out-of-range reads are modelled as the NUL character.
-/

namespace PM

/-- The NUL character, result of reading `std::string` at its size. -/
def nul : Char := Char.ofNat 0

/-- The backspace control character `'\b'`. -/
def bs : Char := Char.ofNat 8

/-- Indexing into the scanned character buffer, as `ms[i]` in `to_html`:
in-range indices give the character, everything else reads as NUL. -/
def charAt (l : List Char) (i : Nat) : Char := l.getD i nul

/-- Result of one iteration of the `while (i < n)` loop of `to_html`
(`src/pm.cc:542-624`): the emitted output chunk, the remaining suffix of the
input, and the updated `inbold` / `initalic` flags. -/
structure StepResult where
  out : String
  rest : List Char
  inbold : Bool
  initalic : Bool
deriving DecidableEq, Repr

/-- The final emission of a loop iteration (`src/pm.cc:615-621`): `<` and `>`
are entity-escaped, any other character is emitted unchanged. -/
def emitChar (c : Char) : String :=
  if c = '<' then "&lt;" else if c = '>' then "&gt;" else String.singleton c

/-- One iteration of the `to_html` body loop (`src/pm.cc:542-624`), operating
on the suffix of the input that starts at the current scan position `i`.

* If the current character and the next are both newlines, any open spans are
  closed, one blank line is emitted, and the whole run of newlines is skipped
  (`src/pm.cc:546-562`).
* Otherwise overstrike detection runs (`src/pm.cc:564-589`): `bold` when the
  current character equals the one two ahead, `italic` when it is `'_'`, with
  the `_ \b _` ambiguity resolved by the currently open italic span.
* Close/open tags are emitted exactly as in `src/pm.cc:591-613`, the character
  to emit being the overstruck one (`ms[i+2]`) in the italic case, and the scan
  advances by two extra positions per triggered span flag, plus one. -/
def to_html_step (l : List Char) (inbold initalic : Bool) : StepResult :=
  let ch := charAt l 0
  if ch = '\n' ∧ charAt l 1 = '\n' then
    { out := (if inbold then "</b>" else "") ++ (if initalic then "</u>" else "") ++ "\n\n"
      rest := (l.drop 2).dropWhile (fun c => c = '\n')
      inbold := false
      initalic := false }
  else
    let bi : Bool × Bool :=
      if charAt l 1 = bs then
        let b := decide (ch = charAt l 2)
        let it := decide (ch = '_')
        if b && it then (if initalic then (false, it) else (b, false)) else (b, it)
      else (false, false)
    let bold := bi.1
    let italic := bi.2
    let out1 := if inbold && !bold then "</b>" else ""
    let inbold1 := if inbold && !bold then false else inbold
    let out2 := if initalic && !italic then "</u>" else ""
    let initalic1 := if initalic && !italic then false else initalic
    let out3 := if bold && !inbold1 then "<b>" else ""
    let inbold2 := if bold then true else inbold1
    let i1 := if bold then 2 else 0
    let out4 := if italic && !initalic1 then "<u>" else ""
    let initalic2 := if italic then true else initalic1
    let ch2 := if italic then charAt l (i1 + 2) else ch
    let i2 := if italic then i1 + 2 else i1
    { out := out1 ++ out2 ++ out3 ++ out4 ++ emitChar ch2
      rest := l.drop (i2 + 1)
      inbold := inbold2
      initalic := initalic2 }

theorem length_dropWhile_le (p : Char → Bool) (l : List Char) :
    (l.dropWhile p).length ≤ l.length := by
  induction l with
  | nil => simp
  | cons a l ih =>
    rw [List.dropWhile_cons]
    split
    · exact le_trans ih (by simp)
    · simp

/-- Each loop iteration strictly advances the scan position. -/
theorem to_html_step_rest_length (l : List Char) (h : l ≠ []) (b i : Bool) :
    (to_html_step l b i).rest.length < l.length := by
  have hl : 0 < l.length := List.length_pos.mpr h
  by_cases hc : charAt l 0 = '\n' ∧ charAt l 1 = '\n'
  · rw [to_html_step, if_pos hc]
    exact lt_of_le_of_lt (length_dropWhile_le _ _) (by rw [List.length_drop]; omega)
  · rw [to_html_step, if_neg hc]
    dsimp only
    rw [List.length_drop]
    exact Nat.sub_lt hl (Nat.succ_pos _)

/-- The `while (i < n)` body loop of `to_html` (`src/pm.cc:541-624`), run on
the suffix of the man string starting at the current position, with the
current `inbold` / `initalic` flags.  Note that the loop ends as soon as the
input is exhausted; spans still open at that point are not closed. -/
def to_html_loop (l : List Char) (inbold initalic : Bool) : String :=
  if h : l = [] then ""
  else
    (to_html_step l inbold initalic).out ++
      to_html_loop (to_html_step l inbold initalic).rest
        (to_html_step l inbold initalic).inbold (to_html_step l inbold initalic).initalic
termination_by l.length
decreasing_by exact to_html_step_rest_length l h _ _

theorem to_html_loop_nil (b i : Bool) : to_html_loop [] b i = "" := by
  unfold to_html_loop
  simp

theorem to_html_loop_cons (c : Char) (r : List Char) (b i : Bool) :
    to_html_loop (c :: r) b i =
      (to_html_step (c :: r) b i).out ++
        to_html_loop (to_html_step (c :: r) b i).rest
          (to_html_step (c :: r) b i).inbold (to_html_step (c :: r) b i).initalic := by
  conv_lhs => unfold to_html_loop
  simp

/-- The body part of `to_html` applied to a man string: the loop starts with
both flags clear (`src/pm.cc:538-539`). -/
def to_html_body (s : String) : String := to_html_loop s.data false false

/-- Fuel-indexed companion of `to_html_loop`, used to evaluate the loop on
concrete inputs by kernel reduction; `to_html_loop_eq_fuel` shows it agrees
with `to_html_loop` whenever the fuel covers the input length. -/
def to_html_loopF : Nat → List Char → Bool → Bool → String
  | 0, _, _, _ => ""
  | _ + 1, [], _, _ => ""
  | fuel + 1, c :: r, b, i =>
    (to_html_step (c :: r) b i).out ++
      to_html_loopF fuel (to_html_step (c :: r) b i).rest
        (to_html_step (c :: r) b i).inbold (to_html_step (c :: r) b i).initalic

theorem to_html_loop_eq_fuel :
    ∀ (fuel : Nat) (l : List Char) (b i : Bool), l.length ≤ fuel →
      to_html_loop l b i = to_html_loopF fuel l b i := by
  intro fuel
  induction fuel with
  | zero =>
    intro l b i h
    have : l = [] := List.length_eq_zero.mp (Nat.le_zero.mp h)
    subst this
    exact to_html_loop_nil b i
  | succ n ih =>
    intro l b i h
    match l with
    | [] => exact to_html_loop_nil b i
    | c :: r =>
      rw [to_html_loop_cons, to_html_loopF]
      have hlt : (to_html_step (c :: r) b i).rest.length < (c :: r).length :=
        to_html_step_rest_length _ (List.cons_ne_nil c r) b i
      rw [List.length_cons] at hlt
      rw [List.length_cons] at h
      rw [ih _ _ _ (by omega)]

/-- Whether the input contains an overstrike sequence: some character
immediately followed by the backspace control character. -/
def hasOverstrike : List Char → Bool
  | [] => false
  | [_] => false
  | _ :: c2 :: rest => if c2 = bs then true else hasOverstrike (c2 :: rest)

theorem hasOverstrike_tail {c : Char} {rest : List Char}
    (h : hasOverstrike (c :: rest) = false) : hasOverstrike rest = false := by
  cases rest with
  | nil => rfl
  | cons d r =>
    rw [hasOverstrike] at h
    split at h
    · exact absurd h (by simp)
    · exact h

theorem hasOverstrike_head {c d : Char} {r : List Char}
    (h : hasOverstrike (c :: d :: r) = false) : d ≠ bs := by
  rw [hasOverstrike] at h
  split at h
  · exact absurd h (by simp)
  · assumption

theorem hasOverstrike_dropWhile (p : Char → Bool) :
    ∀ l : List Char, hasOverstrike l = false → hasOverstrike (l.dropWhile p) = false := by
  intro l
  induction l with
  | nil => simp
  | cons c r ih =>
    intro h
    rw [List.dropWhile_cons]
    split
    · exact ih (hasOverstrike_tail h)
    · exact h

/-- Modelled on the wording of the claim (§8 of the spec): the expected output
body for overstrike-free input, namely the input itself with `<` and `>`
entity-escaped and every maximal run of two or more newlines replaced by
exactly one blank line (two newlines); no other character is changed. -/
def specEscape (c : Char) : String :=
  if c = '<' then "&lt;" else if c = '>' then "&gt;" else String.singleton c

/-- Modelled on the wording of the claim (§8 of the spec): the collapse and
escape transform that the transcoder body is claimed to implement on
overstrike-free input. -/
def specCollapse : List Char → String
  | [] => ""
  | c :: rest =>
    if c = '\n' ∧ rest.headD nul = '\n' then
      "\n\n" ++ specCollapse (rest.tail.dropWhile (fun x => x = '\n'))
    else
      specEscape c ++ specCollapse rest
termination_by l => l.length
decreasing_by
  · exact Nat.lt_succ_of_le (le_trans (length_dropWhile_le _ _) (by simp [List.length_tail]))
  · simp

theorem specCollapse_nil : specCollapse [] = "" := by
  rw [specCollapse]

theorem specCollapse_cons (c : Char) (rest : List Char) :
    specCollapse (c :: rest) =
      if c = '\n' ∧ rest.headD nul = '\n' then
        "\n\n" ++ specCollapse (rest.tail.dropWhile (fun x => x = '\n'))
      else specEscape c ++ specCollapse rest := by
  rw [specCollapse]

theorem emitChar_eq_specEscape (c : Char) : emitChar c = specEscape c := rfl

theorem nul_ne_newline : nul ≠ '\n' := by decide

theorem nul_ne_bs : nul ≠ bs := by decide

/-- On input with no overstrike sequence, one transcoder iteration starting
with both spans closed either collapses a newline run or emits one escaped
character, keeping both spans closed. -/
theorem to_html_loop_no_overstrike :
    ∀ (n : Nat) (l : List Char), l.length ≤ n → hasOverstrike l = false →
      to_html_loop l false false = specCollapse l := by
  intro n
  induction n with
  | zero =>
    intro l hlen _
    have : l = [] := List.length_eq_zero.mp (Nat.le_zero.mp hlen)
    subst this
    rw [to_html_loop_nil, specCollapse_nil]
  | succ n ih =>
    intro l hlen hov
    match l with
    | [] => rw [to_html_loop_nil, specCollapse_nil]
    | c :: rest =>
      rw [to_html_loop_cons, specCollapse_cons]
      by_cases hc : c = '\n' ∧ rest.headD nul = '\n'
      · -- blank-line collapsing iteration
        rw [if_pos hc]
        have hrest : rest ≠ [] := by
          intro he
          rw [he] at hc
          exact nul_ne_newline hc.2
        match rest, hrest with
        | d :: rest2, _ =>
          have hcharc : charAt (c :: d :: rest2) 0 = '\n' ∧ charAt (c :: d :: rest2) 1 = '\n' := by
            constructor
            · exact hc.1
            · simpa [charAt] using hc.2
          have hstep : to_html_step (c :: d :: rest2) false false =
              { out := "\n\n", rest := rest2.dropWhile (fun x => x = '\n')
                inbold := false, initalic := false } := by
            rw [to_html_step, if_pos hcharc]
            rfl
          have hov2 : hasOverstrike (rest2.dropWhile (fun x => x = '\n')) = false :=
            hasOverstrike_dropWhile _ rest2 (hasOverstrike_tail (hasOverstrike_tail hov))
          have hlen2 : (rest2.dropWhile (fun x => x = '\n')).length ≤ n := by
            have h1 := length_dropWhile_le (fun x => decide (x = '\n')) rest2
            simp only [List.length_cons] at hlen
            omega
          rw [hstep]
          dsimp only
          rw [List.tail_cons, ih _ hlen2 hov2]
      · -- ordinary character: the next position is not a backspace, so the
        -- overstrike branch is dead and the character is emitted escaped
        rw [if_neg hc]
        have hnb : charAt (c :: rest) 1 ≠ bs := by
          match rest with
          | [] => simpa [charAt] using nul_ne_bs
          | d :: r => simpa [charAt] using hasOverstrike_head hov
        have hstep : to_html_step (c :: rest) false false =
            { out := emitChar c, rest := rest, inbold := false, initalic := false } := by
          have hcnl : ¬(charAt (c :: rest) 0 = '\n' ∧ charAt (c :: rest) 1 = '\n') := by
            intro hcontra
            refine hc ⟨hcontra.1, ?_⟩
            have := hcontra.2
            match rest with
            | [] => simpa [charAt] using this
            | d :: r => simpa [charAt] using this
          rw [to_html_step, if_neg hcnl, if_neg hnb]
          rfl
        rw [hstep]
        dsimp only
        rw [emitChar_eq_specEscape]
        have hlen2 : rest.length ≤ n := by
          simp only [List.length_cons] at hlen
          omega
        rw [ih _ hlen2 (hasOverstrike_tail hov)]

/-- Claim C1: for every input string that contains no overstrike sequence (no
character immediately followed by a backspace), the transcoder's output body
equals the input with `<` replaced by `&lt;`, `>` replaced by `&gt;`, every
maximal run of two or more consecutive newlines replaced by exactly one blank
line (two newlines), and no other character changed or escaped. -/
theorem transcoder_overstrike_free (s : String) (h : hasOverstrike s.data = false) :
    to_html_body s = specCollapse s.data :=
  to_html_loop_no_overstrike s.data.length s.data le_rfl h

/-- Witness for C1 at the concrete input `"a<\n\n\n>b"`. -/
theorem transcoder_overstrike_free_witness :
    hasOverstrike "a<\n\n\n>b".data = false ∧
      to_html_body "a<\n\n\n>b" = specCollapse "a<\n\n\n>b".data :=
  ⟨by decide, transcoder_overstrike_free "a<\n\n\n>b" (by decide)⟩

example : to_html_body "a<\n\n\n>b" = "a&lt;\n\n&gt;b" := by
  rw [to_html_body, to_html_loop_eq_fuel 8 _ _ _ (by decide)]
  decide

/-- Claim C2 counterexample: for the input consisting exactly of the three
characters `B`, backspace, `B`, the transcoder body output is `<b>B`, not
`<b>B</b>`: the loop ends as soon as the input is exhausted and the bold span
opened by the triple is never closed. -/
theorem transcoder_bold_cex : to_html_body "B\x08B" ≠ "<b>B</b>" := by
  rw [to_html_body, to_html_loop_eq_fuel 3 _ _ _ (by decide)]
  decide

/-- Claim C2 (amended): for input `B BS B` the body output is `<b>B` and for
`_ BS X` it is `<u>X` — in the italic case the emitted character is the
overstruck character (the third character of the triple), not the underscore,
and a span is opened; the opened span is closed only once a later character
outside the span is scanned (so with a trailing newline the outputs are
`<b>B</b>\n` and `<u>X</u>\n`), while at end of input it stays unclosed. -/
theorem transcoder_bold_italic_triples :
    to_html_body "B\x08B" = "<b>B" ∧ to_html_body "_\x08X" = "<u>X" ∧
      to_html_body "B\x08B\n" = "<b>B</b>\n" ∧ to_html_body "_\x08X\n" = "<u>X</u>\n" := by
  refine ⟨?_, ?_, ?_, ?_⟩ <;>
  · rw [to_html_body, to_html_loop_eq_fuel 4 _ _ _ (by decide)]
    decide

/-- Claim C3: the ambiguous triple `_ BS _` is interpreted through the
currently open span.  With no italic span open it is a bold underscore (the
bold span is opened, or continued when already open, and `_` is emitted); with
an italic span already open it is an italic underscore, the italic span stays
open and `_` is emitted.  The last two conjuncts exercise the same behaviour
through the full body loop. -/
theorem transcoder_ambiguous_underscore :
    to_html_step ['_', bs, '_'] false false =
      { out := "<b>_", rest := [], inbold := true, initalic := false } ∧
    to_html_step ['_', bs, '_'] true false =
      { out := "_", rest := [], inbold := true, initalic := false } ∧
    to_html_step ['_', bs, '_'] false true =
      { out := "_", rest := [], inbold := false, initalic := true } ∧
    to_html_body "_\x08_" = "<b>_" ∧
    to_html_body "_\x08X_\x08_" = "<u>X_" := by
  refine ⟨by decide, by decide, by decide, ?_, ?_⟩ <;>
  · rw [to_html_body, to_html_loop_eq_fuel 6 _ _ _ (by decide)]
    decide

/-!
Supervisor / signal-bridge state machine.

The shared globals of `src/pm.cc:30-33` (`server_pid`, `server_not_running`,
`shutting_down`, `exit_status`) together with a ghost count of presentation
processes that have been spawned and not yet exited (`alive`), and a flag
recording that the supervisor loop of `start_server` has returned
(`terminated`).  The spec phase `NotRunning` corresponds to
`server_not_running = true`, `Running` to `server_not_running = false`. -/
structure SupState where
  server_not_running : Bool
  shutting_down : Bool
  exit_status : Nat
  alive : Nat
  terminated : Bool
deriving DecidableEq, Repr

/-- The initial state: phase `NotRunning`, no live process, not shutting
down, exit status 0 (`src/pm.cc:30-33`). -/
def initState : SupState :=
  { server_not_running := true, shutting_down := false, exit_status := 0
    alive := 0, terminated := false }

/-- The asynchronous events that drive the supervisor state:

* `start` — the supervisor loop wakes, finds `server_not_running` and not
  `shutting_down`, and forks the presentation process (`src/pm.cc:693-715`);
* `childExit status` — the presentation process exits and `sigchld_listener`
  reaps it (`waitpid` returns `server_pid`, `src/pm.cc:760-777`);
* `sigchldStale` — a SIGCHLD for which `waitpid(server_pid, ..., WNOHANG)`
  does not return `server_pid` (stale pid / nothing to reap): the handler
  does nothing;
* `sigintTerm` — SIGINT/SIGTERM: `sigint_term_listener` (`src/pm.cc:779-784`);
* `superReturn` — the supervisor loop wakes with `shutting_down` set and runs
  its grace sequence and returns (`src/pm.cc:679-692`); the presentation
  process is then either already dead or force-killed. -/
inductive SupEvent where
  | start
  | childExit (status : Nat)
  | sigchldStale
  | sigintTerm
  | superReturn
deriving DecidableEq, Repr

/-- One transition of the supervisor state machine; `none` when the event is
not enabled in the given state. -/
def supStep (s : SupState) : SupEvent → Option SupState
  | SupEvent.start =>
    if s.terminated = false ∧ s.shutting_down = false ∧ s.server_not_running = true then
      some { s with server_not_running := false, alive := s.alive + 1 }
    else none
  | SupEvent.childExit status =>
    if s.alive = 0 then none
    else if status = 127 then
      -- print_error_and_initiate_shutdown (src/pm.cc:357-366)
      some { s with alive := s.alive - 1, shutting_down := true, exit_status := 1 }
    else if s.shutting_down = false then
      some { s with alive := s.alive - 1, server_not_running := true }
    else
      some { s with alive := s.alive - 1 }
  | SupEvent.sigchldStale => some s
  | SupEvent.sigintTerm => some { s with shutting_down := true }
  | SupEvent.superReturn =>
    if s.terminated = false ∧ s.shutting_down = true then
      some { s with terminated := true, alive := 0 }
    else none

/-- Zero or more enabled transitions. -/
inductive StepsTo : SupState → SupState → Prop where
  | refl (s : SupState) : StepsTo s s
  | tail {s s' s'' : SupState} {e : SupEvent} :
      StepsTo s s' → supStep s' e = some s'' → StepsTo s s''

/-- States reachable from the initial state. -/
def Reachable (s : SupState) : Prop := StepsTo initState s

/-- The inductive invariant: at most one presentation process is alive, and
while the phase is `NotRunning` none is. -/
def SupInv (s : SupState) : Prop :=
  s.alive ≤ 1 ∧ (s.server_not_running = true → s.alive = 0)

theorem supStep_inv {s s' : SupState} {e : SupEvent}
    (h : supStep s e = some s') (hinv : SupInv s) : SupInv s' := by
  obtain ⟨h1, h2⟩ := hinv
  cases e with
  | start =>
    rw [supStep] at h
    split at h
    · next hg =>
      cases h
      exact ⟨by simpa using h2 hg.2.2, by simp⟩
    · exact absurd h (by simp)
  | childExit status =>
    rw [supStep] at h
    split at h
    · exact absurd h (by simp)
    · split at h
      · cases h
        exact ⟨by simp; omega, fun hr => by simp; omega⟩
      · split at h
        · cases h
          exact ⟨by simp; omega, fun _ => by simp; omega⟩
        · cases h
          exact ⟨by simp; omega, fun hr => by simp at hr ⊢; exact Nat.sub_eq_zero_of_le (le_trans (h2 hr).le (by omega))⟩
  | sigchldStale =>
    cases h
    exact ⟨h1, h2⟩
  | sigintTerm =>
    cases h
    exact ⟨h1, h2⟩
  | superReturn =>
    rw [supStep] at h
    split at h
    · cases h
      exact ⟨by simp, by simp⟩
    · exact absurd h (by simp)

theorem stepsTo_inv {s s' : SupState} (h : StepsTo s s') (hinv : SupInv s) : SupInv s' := by
  induction h with
  | refl => exact hinv
  | tail _ hstep ih => exact supStep_inv hstep ih

/-- Claim C4: in every state reachable from the initial supervisor state by
any interleaving of starts, crash notifications, shutdown requests and
fatal-launch-failure notifications, at most one presentation process is
alive; moreover a start transition is only enabled when the phase is
`NotRunning` (`server_not_running = true`) and not shutting down. -/
theorem at_most_one_alive :
    (∀ s : SupState, Reachable s → s.alive ≤ 1) ∧
    (∀ (s s' : SupState), supStep s SupEvent.start = some s' →
      s.server_not_running = true ∧ s.shutting_down = false) := by
  constructor
  · intro s hs
    exact (stepsTo_inv hs ⟨by simp [initState], by simp [initState]⟩).1
  · intro s s' h
    rw [supStep] at h
    split at h
    · next hg => exact ⟨hg.2.2, hg.2.1⟩
    · exact absurd h (by simp)

/-- Witness for C4: the initial state is reachable and satisfies the bound,
and the start transition out of it requires phase `NotRunning` and no
shutdown. -/
theorem at_most_one_alive_witness :
    initState.alive ≤ 1 ∧ initState.server_not_running = true ∧ initState.shutting_down = false :=
  ⟨at_most_one_alive.1 initState (StepsTo.refl _),
    at_most_one_alive.2 initState
      { initState with server_not_running := false, alive := 1 } (by decide)⟩

theorem supStep_shutting_mono {s s' : SupState} {e : SupEvent}
    (h : supStep s e = some s') (hs : s.shutting_down = true) :
    s'.shutting_down = true := by
  cases e <;> rw [supStep] at h
  case start => rw [hs] at h; simp at h
  case childExit status =>
    split at h
    · simp at h
    · split at h
      · cases h; simp
      · split at h
        · next hsd => rw [hs] at hsd; simp at hsd
        · cases h; exact hs
  case sigchldStale => cases h; exact hs
  case sigintTerm => cases h; simp
  case superReturn =>
    split at h
    · cases h; exact hs
    · simp at h

/-- Claim C5: the shutting-down flag is monotone — once `shutting_down` is
true, no later sequence of enabled transitions (of any component: interrupt
notifications, child-exit notifications, supervisor actions) ever makes it
false again. -/
theorem shutting_down_monotone :
    ∀ s s' : SupState, StepsTo s s' → s.shutting_down = true → s'.shutting_down = true := by
  intro s s' h hs
  induction h with
  | refl => exact hs
  | tail _ hstep ih => exact supStep_shutting_mono hstep ih

/-- Witness for C5: from a shutting-down state, taking the supervisor-return
transition keeps the flag set. -/
theorem shutting_down_monotone_witness :
    (SupState.mk true true 0 0 true).shutting_down = true :=
  shutting_down_monotone (SupState.mk true true 0 0 false) (SupState.mk true true 0 0 true)
    (StepsTo.tail (StepsTo.refl _) (e := SupEvent.superReturn) (by decide)) rfl

theorem supStep_exit_status_mono {s s' : SupState} {e : SupEvent}
    (h : supStep s e = some s') (hs : s.exit_status = 1) : s'.exit_status = 1 := by
  cases e <;> rw [supStep] at h
  case start =>
    split at h
    · cases h; exact hs
    · simp at h
  case childExit status =>
    split at h
    · simp at h
    · split at h
      · cases h; simp
      · split at h
        · cases h; exact hs
        · cases h; exact hs
  case sigchldStale => cases h; exact hs
  case sigintTerm => cases h; exact hs
  case superReturn =>
    split at h
    · cases h; exact hs
    · simp at h

theorem start_disabled_of_shutting {s : SupState} (hs : s.shutting_down = true) :
    supStep s SupEvent.start = none := by
  rw [supStep]
  rw [if_neg]
  intro hg
  rw [hs] at hg
  exact absurd hg.2.1 (by simp)

/-- Claim C6: whenever a child-exit notification reports the distinguished
launch-failure status 127, the resulting state is shutting down with exit
status 1, and along every sequence of further enabled transitions the exit
status stays 1 and the start transition is never enabled again — in
particular stale transient-crash notifications (`sigchldStale`) change
nothing. -/
theorem fatal_launch_failure :
    ∀ s s' : SupState, supStep s (SupEvent.childExit 127) = some s' →
      s'.shutting_down = true ∧ s'.exit_status = 1 ∧
        ∀ s'' : SupState, StepsTo s' s'' →
          s''.exit_status = 1 ∧ supStep s'' SupEvent.start = none := by
  intro s s' h
  have hs' : s'.shutting_down = true ∧ s'.exit_status = 1 := by
    rw [supStep] at h
    split at h
    · simp at h
    · rw [if_pos rfl] at h
      cases h
      exact ⟨rfl, rfl⟩
  refine ⟨hs'.1, hs'.2, ?_⟩
  intro s'' hsteps
  constructor
  · induction hsteps with
    | refl => exact hs'.2
    | tail _ hstep ih => exact supStep_exit_status_mono hstep ih
  · exact start_disabled_of_shutting (shutting_down_monotone _ _ hsteps hs'.1)

/-- Witness for C6: a fatal launch failure from the running state. -/
theorem fatal_launch_failure_witness :
    (SupState.mk false true 1 0 false).shutting_down = true ∧
      (SupState.mk false true 1 0 false).exit_status = 1 ∧
      supStep (SupState.mk false true 1 0 false) SupEvent.start = none := by
  have h := fatal_launch_failure (SupState.mk false false 0 1 false)
    (SupState.mk false true 1 0 false) (by decide)
  exact ⟨h.1, (h.2.2 _ (StepsTo.refl _)).1, (h.2.2 _ (StepsTo.refl _)).2⟩

/-- The bounded graceful-shutdown loop of `start_server` (`src/pm.cc:683-691`):
`exited t` tells whether, at the `t`-th non-blocking check, the presentation
process has already been reaped (`waitpid` returns `-1` with `ECHILD`).  The
result is the number of checks performed and whether the process was
force-killed after the window. -/
def grace_loop (exited : Nat → Bool) (t : Nat) : Nat × Bool :=
  if t < 50 then
    if exited t then (t + 1, false) else grace_loop exited (t + 1)
  else (50, true)
termination_by 50 - t
decreasing_by omega

theorem grace_loop_checks_le (exited : Nat → Bool) :
    ∀ (k t : Nat), 50 - t ≤ k → (grace_loop exited t).1 ≤ 50 := by
  intro k
  induction k with
  | zero =>
    intro t ht
    rw [grace_loop, if_neg (by omega)]
  | succ k ih =>
    intro t ht
    rw [grace_loop]
    split
    · split
      · simp; omega
      · exact ih (t + 1) (by omega)
    · simp

theorem grace_loop_early (exited : Nat → Bool) :
    ∀ (k t T : Nat), 50 - t ≤ k → t ≤ T → T < 50 → exited T = true →
      (∀ u, t ≤ u → u < T → exited u = false) →
      grace_loop exited t = (T + 1, false) := by
  intro k
  induction k with
  | zero =>
    intro t T hk htT hT _ _
    omega
  | succ k ih =>
    intro t T hk htT hT hex hbefore
    rw [grace_loop, if_pos (by omega)]
    rcases Nat.eq_or_lt_of_le htT with heq | hlt
    · subst heq
      rw [if_pos hex]
    · rw [if_neg (by simp [hbefore t le_rfl hlt])]
      exact ih (t + 1) T (by omega) hlt hT hex (fun u hu1 hu2 => hbefore u (by omega) hu2)

theorem grace_loop_timeout (exited : Nat → Bool) :
    ∀ (k t : Nat), 50 - t ≤ k → (∀ u, u < 50 → exited u = false) →
      grace_loop exited t = (50, true) := by
  intro k
  induction k with
  | zero =>
    intro t hk _
    rw [grace_loop, if_neg (by omega)]
  | succ k ih =>
    intro t hk hall
    rw [grace_loop]
    split
    · next hlt =>
      rw [if_neg (by simp [hall t hlt])]
      exact ih (t + 1) (by omega) hall
    · rfl

/-- Claim C7: once the shutting-down flag is set the supervisor takes no
further start transition, and its shutdown sequence is bounded: it performs at
most 50 non-blocking exit checks (one every tenth of a second, about five
seconds in total), returns without killing as soon as the process is observed
to have exited, and otherwise force-kills the process after the window and
returns. -/
theorem shutdown_bounded :
    (∀ s : SupState, s.shutting_down = true → supStep s SupEvent.start = none) ∧
    (∀ exited : Nat → Bool, (grace_loop exited 0).1 ≤ 50) ∧
    (∀ (exited : Nat → Bool) (T : Nat), T < 50 → exited T = true →
      (∀ u, u < T → exited u = false) → grace_loop exited 0 = (T + 1, false)) ∧
    (∀ exited : Nat → Bool, (∀ u, u < 50 → exited u = false) →
      grace_loop exited 0 = (50, true)) := by
  refine ⟨fun s hs => start_disabled_of_shutting hs, ?_, ?_, ?_⟩
  · intro exited
    exact grace_loop_checks_le exited 50 0 (by omega)
  · intro exited T hT hex hbefore
    exact grace_loop_early exited 50 0 T (by omega) (Nat.zero_le T) hT hex
      (fun u _ hu => hbefore u hu)
  · intro exited hall
    exact grace_loop_timeout exited 50 0 (by omega) hall

/-- A child-exit observation sequence that never reports the process gone. -/
def neverExited : Nat → Bool := fun _ => false

/-- A child-exit observation sequence where the process is gone from the
third check on. -/
def exitedFromThree : Nat → Bool := fun t => decide (3 ≤ t)

/-- Witness for C7: with the process never observed dead the loop performs all
50 checks and kills; with the process dead from the third check on it returns
normally after 4 checks; a shutting-down state admits no start transition. -/
theorem shutdown_bounded_witness :
    supStep (SupState.mk true true 0 0 false) SupEvent.start = none ∧
      (grace_loop neverExited 0).1 ≤ 50 ∧
      grace_loop exitedFromThree 0 = (4, false) ∧
      grace_loop neverExited 0 = (50, true) :=
  ⟨shutdown_bounded.1 _ rfl,
   shutdown_bounded.2.1 neverExited,
   shutdown_bounded.2.2.1 exitedFromThree 3 (by decide) (by decide) (by decide),
   shutdown_bounded.2.2.2 neverExited (fun u _ => rfl)⟩

/-- The `timespec` struct: seconds and a sub-second (nanosecond) component. -/
structure Timespec where
  tv_sec : Int
  tv_nsec : Int
deriving DecidableEq, Repr

/-- The comparison `operator<` on `timespec` (`src/pm.cc:786-792`). -/
def timespec_lt (lhs rhs : Timespec) : Bool :=
  if lhs.tv_sec = rhs.tv_sec then decide (lhs.tv_nsec < rhs.tv_nsec)
  else decide (lhs.tv_sec < rhs.tv_sec)

/-- One cycle of `watch_for_changes` in which the stat succeeded
(`src/pm.cc:750-755`): if `last_mtime < mtime`, the re-render, artifact
rewrite and update notification are triggered and the cursor advances to
`mtime`; otherwise nothing is triggered and the cursor is unchanged.  Returns
(triggered?, new cursor). -/
def watch_cycle (last_mtime mtime : Timespec) : Bool × Timespec :=
  if timespec_lt last_mtime mtime then (true, mtime) else (false, last_mtime)

/-- Claim C8: a watch cycle triggers a re-render (and advances the cursor to
the observed time) exactly when the newly observed modification time is
strictly later than the stored cursor in the lexicographic order on
(seconds, sub-second); otherwise the cursor is unchanged, and in particular an
equal timestamp never triggers. -/
theorem watch_cycle_strictly_later :
    ∀ last m : Timespec,
      (watch_cycle last m =
        if last.tv_sec < m.tv_sec ∨ (last.tv_sec = m.tv_sec ∧ last.tv_nsec < m.tv_nsec)
        then (true, m) else (false, last)) ∧
      watch_cycle m m = (false, m) := by
  intro last m
  constructor
  · rw [watch_cycle, timespec_lt]
    by_cases hsec : last.tv_sec = m.tv_sec
    · rw [if_pos hsec]
      by_cases hns : last.tv_nsec < m.tv_nsec
      · rw [if_pos (by simp [hns]), if_pos (Or.inr ⟨hsec, hns⟩)]
      · rw [if_neg (by simp [hns]), if_neg (by omega)]
    · rw [if_neg hsec]
      by_cases hlt : last.tv_sec < m.tv_sec
      · rw [if_pos (by simp [hlt]), if_pos (Or.inl hlt)]
      · rw [if_neg (by simp [hlt]), if_neg (by omega)]
  · rw [watch_cycle, timespec_lt, if_pos rfl, if_neg (by simp)]

/-- The effect of `write_to_file` (`src/pm.cc:653-670`) on the artifact's
byte content.  The file is opened with `open(filepath, O_WRONLY)` — without
`O_TRUNC` — so the write loop stores `str` starting at offset 0 and any bytes
of the previous content beyond `str`'s length survive. -/
def write_to_file (str old_content : List Char) : List Char :=
  str ++ old_content.drop str.length

/-- Claim C9 (code bug evidence): writing the one-character string `B` over a
previous four-character content `AAAA` leaves `BAAA` in the artifact file, not
`B`: the previous content is not fully replaced when the new content is
shorter, because the `open` in `write_to_file` lacks `O_TRUNC`. -/
theorem write_to_file_no_truncate :
    write_to_file ['B'] ['A', 'A', 'A', 'A'] = ['B', 'A', 'A', 'A'] ∧
      write_to_file ['B'] ['A', 'A', 'A', 'A'] ≠ ['B'] := by
  decide

/-- Two's-complement wrap of an unbounded integer into the value range of a
32-bit signed C `int`, i.e. the unique representative modulo `2 ^ 32` lying in
`[-2 ^ 31, 2 ^ 31)`. -/
def wrap32 (x : Int) : Int := (x + 2 ^ 31) % 2 ^ 32 - 2 ^ 31

/-- The accumulation loop of `string2unsigned` (`src/pm.cc:794-805`): the C
`int` sum is modelled as an `Int` wrapped to 32-bit two's complement after
each `sum = sum * 10 + ord - 48` step — the source performs the accumulation
with no overflow check (its own comment warns "This function does not check
for overflow"), so past `INT_MAX` the stored value wraps. -/
def s2u_loop (sum : Int) : List Char → Int
  | [] => sum
  | c :: rest =>
    if 48 ≤ c.toNat ∧ c.toNat ≤ 57 then
      s2u_loop (wrap32 (sum * 10 + ((c.toNat : Int) - 48))) rest
    else -1

/-- `string2unsigned` (`src/pm.cc:794-805`). -/
def string2unsigned (s : List Char) : Int := s2u_loop 0 s

/-- The `-w`/`--width`/`--columns` branch of `main` (`src/pm.cc:238-244`):
the argument is converted with `string2unsigned`; `-1` raises `PMException`
(modelled as `none`), any other value is stored into `columns`. -/
def set_columns (arg : List Char) : Option Int :=
  if string2unsigned arg = -1 then none else some (string2unsigned arg)

/-- The base-10 value of a digit string, most significant digit first. -/
def decimalValue (s : List Char) : Nat :=
  Nat.ofDigits 10 (s.reverse.map (fun c => c.toNat - 48))

theorem s2u_loop_nondigit :
    ∀ (s : List Char) (sum : Int), (∃ c ∈ s, ¬(48 ≤ c.toNat ∧ c.toNat ≤ 57)) →
      s2u_loop sum s = -1 := by
  intro s
  induction s with
  | nil =>
    intro sum h
    obtain ⟨c, hc, _⟩ := h
    exact absurd hc (List.not_mem_nil c)
  | cons c rest ih =>
    intro sum h
    rw [s2u_loop]
    by_cases hd : 48 ≤ c.toNat ∧ c.toNat ≤ 57
    · rw [if_pos hd]
      obtain ⟨x, hx, hxd⟩ := h
      rcases List.mem_cons.mp hx with heq | hmem
      · subst heq; exact absurd hd hxd
      · exact ih _ ⟨x, hmem, hxd⟩
    · rw [if_neg hd]

theorem two_pow_31 : (2 : Int) ^ 31 = 2147483648 := by norm_num

theorem two_pow_32 : (2 : Int) ^ 32 = 4294967296 := by norm_num

theorem wrap32_range (x : Int) : -2 ^ 31 ≤ wrap32 x ∧ wrap32 x < 2 ^ 31 := by
  rw [wrap32, two_pow_31, two_pow_32]
  have h1 := Int.emod_nonneg (x + 2147483648) (show (4294967296 : Int) ≠ 0 by norm_num)
  have h2 := Int.emod_lt_of_pos (x + 2147483648) (show (0 : Int) < 4294967296 by norm_num)
  omega

theorem wrap32_emod (x : Int) : wrap32 x % 2 ^ 32 = x % 2 ^ 32 := by
  rw [wrap32, two_pow_32]
  omega

/-- The stored `int` always stays in the 32-bit signed range. -/
theorem s2u_loop_range :
    ∀ (s : List Char) (sum : Int), -2 ^ 31 ≤ sum → sum < 2 ^ 31 →
      -2 ^ 31 ≤ s2u_loop sum s ∧ s2u_loop sum s < 2 ^ 31 := by
  intro s
  induction s with
  | nil =>
    intro sum h1 h2
    rw [s2u_loop]
    exact ⟨h1, h2⟩
  | cons c rest ih =>
    intro sum h1 h2
    rw [s2u_loop]
    split
    · exact ih _ (wrap32_range _).1 (wrap32_range _).2
    · norm_num

/-- On all-digit input the wrapped accumulation is congruent modulo `2 ^ 32`
to the unchecked mathematical accumulation. -/
theorem s2u_loop_digits_emod :
    ∀ (s : List Char) (sum : Int), (∀ c ∈ s, 48 ≤ c.toNat ∧ c.toNat ≤ 57) →
      s2u_loop sum s % 2 ^ 32 =
        (sum * 10 ^ s.length + (decimalValue s : Int)) % 2 ^ 32 := by
  intro s
  induction s with
  | nil =>
    intro sum _
    rw [s2u_loop]
    simp [decimalValue, Nat.ofDigits]
  | cons c rest ih =>
    intro sum h
    have hc := h c (List.mem_cons_self c rest)
    rw [s2u_loop, if_pos hc, ih _ (fun x hx => h x (List.mem_cons_of_mem c hx))]
    have hval : (decimalValue (c :: rest) : Int) =
        (decimalValue rest : Int) + 10 ^ rest.length * ((c.toNat : Int) - 48) := by
      rw [decimalValue, decimalValue, List.reverse_cons, List.map_append]
      push_cast [Nat.ofDigits_append, Nat.ofDigits]
      have : ((c.toNat - 48 : Nat) : Int) = (c.toNat : Int) - 48 := by omega
      simp [this]
    have hw : (wrap32 (sum * 10 + ((c.toNat : Int) - 48)) * 10 ^ rest.length +
          (decimalValue rest : Int)) % 2 ^ 32 =
        ((sum * 10 + ((c.toNat : Int) - 48)) * 10 ^ rest.length +
          (decimalValue rest : Int)) % 2 ^ 32 :=
      Int.ModEq.add_right _ (Int.ModEq.mul_right _ (wrap32_emod _))
    rw [hw, hval, List.length_cons, pow_succ]
    congr 1
    ring

/-- Below `INT_MAX` no wrap occurs and the result is the exact base-10
value. -/
theorem string2unsigned_digits_exact (s : List Char)
    (h : ∀ c ∈ s, 48 ≤ c.toNat ∧ c.toNat ≤ 57)
    (hlt : (decimalValue s : Int) < 2 ^ 31) :
    string2unsigned s = (decimalValue s : Int) := by
  have hmod := s2u_loop_digits_emod s 0 h
  rw [zero_mul, zero_add] at hmod
  have hrange := s2u_loop_range s 0 (by norm_num) (by norm_num)
  have hv : (0 : Int) ≤ (decimalValue s : Int) := Int.natCast_nonneg _
  rw [string2unsigned]
  rw [two_pow_31] at hrange hlt
  rw [two_pow_32] at hmod
  omega

set_option maxRecDepth 4000 in
/-- Claim C10 counterexample: `"4294967295"` is an all-digit string whose
base-10 value is `4294967295`, yet `string2unsigned` returns `-1` (the 32-bit
accumulation wraps), so the program does not return the base-10 value for
every digit string; the width is then rejected as invalid. -/
theorem string2unsigned_overflow_cex :
    (∀ c ∈ "4294967295".data, 48 ≤ c.toNat ∧ c.toNat ≤ 57) ∧
      (decimalValue "4294967295".data : Int) = 4294967295 ∧
      string2unsigned "4294967295".data = -1 ∧
      string2unsigned "4294967295".data ≠ (decimalValue "4294967295".data : Int) ∧
      set_columns "4294967295".data = none := by
  refine ⟨by decide, by decide, by decide, by decide, by decide⟩

/-- Claim C10 (amended): `string2unsigned` returns `-1` on inputs containing
a non-digit character; on all-digit inputs it returns the result of the
unchecked 32-bit `int` accumulation `sum = sum*10 + digit` — a value congruent
to the base-10 value modulo `2 ^ 32`, and equal to the base-10 value exactly
whenever that value is below `2 ^ 31`; the empty string yields `0`, so a width
argument of `""` passed to `-w`/`--width` is accepted and sets the output
width to `0` instead of being rejected as invalid. -/
theorem string2unsigned_spec :
    (∀ s : List Char, (∃ c ∈ s, ¬(48 ≤ c.toNat ∧ c.toNat ≤ 57)) →
      string2unsigned s = -1) ∧
    (∀ s : List Char, (∀ c ∈ s, 48 ≤ c.toNat ∧ c.toNat ≤ 57) →
      string2unsigned s % 2 ^ 32 = (decimalValue s : Int) % 2 ^ 32) ∧
    (∀ s : List Char, (∀ c ∈ s, 48 ≤ c.toNat ∧ c.toNat ≤ 57) →
      (decimalValue s : Int) < 2 ^ 31 →
      string2unsigned s = (decimalValue s : Int)) ∧
    string2unsigned [] = 0 ∧
    set_columns [] = some 0 := by
  refine ⟨?_, ?_, string2unsigned_digits_exact, rfl, rfl⟩
  · intro s h
    exact s2u_loop_nondigit s 0 h
  · intro s h
    have hmod := s2u_loop_digits_emod s 0 h
    rw [zero_mul, zero_add] at hmod
    rw [string2unsigned]
    exact hmod

/-- Witness for C10: `"4a"` is rejected with `-1`; `"17"` evaluates to its
base-10 value both modulo `2 ^ 32` and exactly. -/
theorem string2unsigned_spec_witness :
    string2unsigned ['4', 'a'] = -1 ∧
      string2unsigned ['1', '7'] % 2 ^ 32 = (decimalValue ['1', '7'] : Int) % 2 ^ 32 ∧
      string2unsigned ['1', '7'] = (decimalValue ['1', '7'] : Int) ∧
      string2unsigned [] = 0 ∧ set_columns [] = some 0 :=
  ⟨string2unsigned_spec.1 ['4', 'a'] ⟨'a', by decide, by decide⟩,
   string2unsigned_spec.2.1 ['1', '7'] (by decide),
   string2unsigned_spec.2.2.1 ['1', '7'] (by decide) (by decide),
   string2unsigned_spec.2.2.2.1,
   string2unsigned_spec.2.2.2.2⟩

example : string2unsigned ['1', '7'] = 17 := by decide

example : decimalValue ['1', '7'] = 17 := by decide

end PM
